import Mathlib

/-!
Shallow embedding of the Suricata SNMP application-layer session and
transaction tracker (rust/src/snmp/snmp.rs) together with proofs about its
probing heuristic, transaction creation, lookup, removal and iteration.

Machine integers of the source (u32 version fields, u64 transaction
counters) are modelled as Nat; all reachable values stay far below the
wrap-around points, and no operation of the source relies on overflow.
The external byte-level decoders (der_parser's parse_der_sequence and the
snmp_parser module's parse_snmp_generic_message) are out of scope of the
source file, so a raw byte buffer is abstracted by its length together
with the results those two external decoders produce on it.
-/

namespace Snmp

/-- Error kinds of the nom combinator library as used by the source:
Incomplete means more bytes are needed, Error and Failure are the
recoverable and unrecoverable parse errors. -/
inductive NomErr
  | Incomplete
  | Error
  | Failure
deriving DecidableEq, Repr

/-- Modelled from the spec: an element of the outer BER sequence, abstracted
by the result of `as_u32()` on it (`some n` when the element is an integer
that fits in a u32, `none` otherwise). -/
structure BerElem where
  as_u32 : Option Nat
deriving DecidableEq, Repr

/-- Modelled from the spec: content of the object returned by the external
DER decoder; the probing code only distinguishes a sequence (with its list
of elements) from every other shape. -/
inductive BerObjectContent
  | Sequence (v : List BerElem)
  | Other
deriving DecidableEq, Repr

/-- Modelled from the spec: the object returned by the external DER decoder. -/
structure BerObj where
  content : BerObjectContent
deriving DecidableEq, Repr

/-- Modelled from the spec: a generic (get/set/response style) PDU with its
error status and the object identifiers of its variable bindings.  Object
identifiers are abstracted as numeric tokens. -/
structure SnmpGenericPdu where
  pdu_type : Nat
  err : Nat
  vars : List Nat
deriving DecidableEq, Repr

/-- Modelled from the spec: a bulk PDU. -/
structure SnmpBulkPdu where
  pdu_type : Nat
  vars : List Nat
deriving DecidableEq, Repr

/-- Modelled from the spec: a v1 trap PDU with trap type, enterprise
identifier and agent (source) address. -/
structure SnmpTrapPdu where
  pdu_type : Nat
  generic_trap : Nat
  enterprise : Nat
  agent_addr : Nat
  vars : List Nat
deriving DecidableEq, Repr

/-- Modelled from the spec: the three PDU variants produced by the external
message decoder. -/
inductive SnmpPdu
  | Generic (pdu : SnmpGenericPdu)
  | Bulk (pdu : SnmpBulkPdu)
  | TrapV1 (t : SnmpTrapPdu)
deriving DecidableEq, Repr

/-- The PDU type tag of a decoded PDU. -/
def SnmpPdu.pdu_type : SnmpPdu → Nat
  | SnmpPdu.Generic p => p.pdu_type
  | SnmpPdu.Bulk p => p.pdu_type
  | SnmpPdu.TrapV1 t => t.pdu_type

/-- The object identifiers of the PDU's variable bindings, in order
(the source's `vars_iter`, with each variable abstracted by its oid). -/
def SnmpPdu.vars_iter : SnmpPdu → List Nat
  | SnmpPdu.Generic p => p.vars
  | SnmpPdu.Bulk p => p.vars
  | SnmpPdu.TrapV1 t => t.vars

/-- Modelled from the spec: a decoded v1 / v2c message (wire version 0 or 1,
community string, PDU). -/
structure SnmpMessage where
  version : Nat
  community : String
  pdu : SnmpPdu
deriving DecidableEq, Repr

/-- Modelled from the spec: user-security-model parameters of a v3 message,
abstracted by the embedded user name. -/
structure UsmSecurityParams where
  msg_user_name : String
deriving DecidableEq, Repr

/-- Modelled from the spec: the security parameters of a v3 message: either
USM parameters or some other (unrecognized) security model. -/
inductive SecurityParameters
  | USM (usm : UsmSecurityParams)
  | Other
deriving DecidableEq, Repr

/-- Modelled from the spec: a plaintext scoped PDU, carrying the actual PDU
in its `data` field. -/
structure ScopedPdu where
  data : SnmpPdu
deriving DecidableEq, Repr

/-- Modelled from the spec: the scoped PDU data of a v3 message, either in
the clear or encrypted (the ciphertext itself is irrelevant here). -/
inductive ScopedPduData
  | Plaintext (pdu : ScopedPdu)
  | Encrypted
deriving DecidableEq, Repr

/-- Modelled from the spec: a decoded v3 message. -/
structure SnmpV3Message where
  version : Nat
  security_params : SecurityParameters
  data : ScopedPduData
deriving DecidableEq, Repr

/-- Modelled from the spec: the result variants of the external
`parse_snmp_generic_message` decoder. -/
inductive SnmpGenericMessage
  | V1 (msg : SnmpMessage)
  | V2 (msg : SnmpMessage)
  | V3 (msg : SnmpV3Message)
deriving DecidableEq, Repr

instance exceptDecEq {ε α : Type} [DecidableEq ε] [DecidableEq α] :
    DecidableEq (Except ε α) := fun x y =>
  match x, y with
  | Except.ok a, Except.ok b =>
      if h : a = b then isTrue (by rw [h]) else isFalse (by intro he; cases he; exact h rfl)
  | Except.ok _, Except.error _ => isFalse (by intro h; cases h)
  | Except.error _, Except.ok _ => isFalse (by intro h; cases h)
  | Except.error e, Except.error f =>
      if h : e = f then isTrue (by rw [h]) else isFalse (by intro he; cases he; exact h rfl)

/-- A raw byte buffer, abstracted by its length and by the results the two
external decoders give on it: `der` is the outcome of `parse_der_sequence`,
`decode` the outcome of `parse_snmp_generic_message`. -/
structure Buffer where
  len : Nat
  der : Except NomErr BerObj
  decode : Except NomErr SnmpGenericMessage
deriving DecidableEq, Repr

/-- The anomaly events of the source's SNMPEvent enum. -/
inductive SNMPEvent
  | MalformedData
  | UnknownSecurityModel
  | VersionMismatch
deriving DecidableEq, Repr

/-- The numeric code of an event (the Rust `event as u8` cast, following
declaration order). -/
def SNMPEvent.code : SNMPEvent → Nat
  | SNMPEvent.MalformedData => 0
  | SNMPEvent.UnknownSecurityModel => 1
  | SNMPEvent.VersionMismatch => 2

/-- The source's SNMPPduInfo: summary of a decoded PDU. -/
structure SNMPPduInfo where
  pdu_type : Nat
  err : Nat
  trap_type : Option (Nat × Nat × Nat)
  vars : List Nat
deriving DecidableEq, Repr

/-- The Default impl for SNMPPduInfo. -/
def SNMPPduInfo.default : SNMPPduInfo :=
  { pdu_type := 0, err := 0, trap_type := none, vars := [] }

/-- The source's SNMPTransaction.  The opaque detection-state pointer and
the host tx_data block are owned by the host and never interpreted by this
code, so they are omitted; the raw event-list pointer is modelled as the
owned list of event codes it accumulates. -/
structure SNMPTransaction where
  version : Nat
  info : Option SNMPPduInfo
  community : Option String
  usm : Option String
  encrypted : Bool
  id : Nat
  events : List Nat
deriving DecidableEq, Repr

/-- The source's SNMPState: one session per flow. -/
structure SNMPState where
  version : Nat
  transactions : List SNMPTransaction
  tx_id : Nat
deriving DecidableEq, Repr

/-- SNMPTransaction::new. -/
def SNMPTransaction.new (version : Nat) (id : Nat) : SNMPTransaction :=
  { version := version, info := none, community := none, usm := none,
    encrypted := false, id := id, events := [] }

/-- SNMPState::new. -/
def SNMPState.new : SNMPState :=
  { version := 0, transactions := [], tx_id := 0 }

/-- SNMPState::new_tx: increment the counter and create a transaction
carrying the session's version and the incremented counter as its id. -/
def SNMPState.new_tx (s : SNMPState) : SNMPState × SNMPTransaction :=
  ({ s with tx_id := s.tx_id + 1 }, SNMPTransaction.new s.version (s.tx_id + 1))

/-- add_pdu_info's construction of the SNMPPduInfo record from a PDU. -/
def mkPduInfo (pdu : SnmpPdu) : SNMPPduInfo :=
  let pdu_info : SNMPPduInfo := { SNMPPduInfo.default with pdu_type := pdu.pdu_type }
  let pdu_info :=
    match pdu with
    | SnmpPdu.Generic p => { pdu_info with err := p.err }
    | SnmpPdu.Bulk _ => pdu_info
    | SnmpPdu.TrapV1 t =>
        { pdu_info with trap_type := some (t.generic_trap, t.enterprise, t.agent_addr) }
  { pdu_info with vars := pdu.vars_iter }

/-- SNMPState::add_pdu_info: store the PDU summary on the transaction. -/
def add_pdu_info (pdu : SnmpPdu) (tx : SNMPTransaction) : SNMPTransaction :=
  { tx with info := some (mkPduInfo pdu) }

/-- SNMPState::set_event_tx: append the event's code to the transaction's
event list (sc_app_layer_decoder_events_set_event_raw). -/
def set_event_tx (tx : SNMPTransaction) (event : SNMPEvent) : SNMPTransaction :=
  { tx with events := tx.events ++ [event.code] }

/-- Apply `f` to the last element of a list, if any (the effect of a
mutation through `last_mut()`). -/
def modifyLast {α : Type} (f : α → α) : List α → List α
  | [] => []
  | [a] => [f a]
  | a :: b :: rest => a :: modifyLast f (b :: rest)

/-- SNMPState::set_event: set an event on the most recent transaction; if
the session has none, nothing happens. -/
def SNMPState.set_event (s : SNMPState) (event : SNMPEvent) : SNMPState :=
  { s with transactions := modifyLast (fun tx => set_event_tx tx event) s.transactions }

/-- SNMPState::handle_snmp_v12: build a transaction from a decoded v1/v2c
message, tag a version mismatch (wire version is 0 or 1, one less than the
session's version encoding), populate PDU info and community, push it. -/
def SNMPState.handle_snmp_v12 (s : SNMPState) (msg : SnmpMessage) (_direction : Nat) :
    SNMPState × Int :=
  let p := s.new_tx
  let s := p.1
  let tx := p.2
  let tx :=
    if s.version ≠ msg.version + 1 then set_event_tx tx SNMPEvent.VersionMismatch else tx
  let tx := add_pdu_info msg.pdu tx
  let tx := { tx with community := some msg.community }
  ({ s with transactions := s.transactions ++ [tx] }, 0)

/-- SNMPState::handle_snmp_v3: build a transaction from a decoded v3
message: tag a version mismatch, record the PDU summary if the scoped PDU
is plaintext or mark it encrypted otherwise, record the USM user name or
tag an unknown security model, push it. -/
def SNMPState.handle_snmp_v3 (s : SNMPState) (msg : SnmpV3Message) (_direction : Nat) :
    SNMPState × Int :=
  let p := s.new_tx
  let s := p.1
  let tx := p.2
  let tx :=
    if s.version ≠ msg.version then set_event_tx tx SNMPEvent.VersionMismatch else tx
  let tx :=
    match msg.data with
    | ScopedPduData.Plaintext pdu => add_pdu_info pdu.data tx
    | ScopedPduData.Encrypted => { tx with encrypted := true }
  let tx :=
    match msg.security_params with
    | SecurityParameters.USM usm => { tx with usm := some usm.msg_user_name }
    | SecurityParameters.Other => set_event_tx tx SNMPEvent.UnknownSecurityModel
  ({ s with transactions := s.transactions ++ [tx] }, 0)

/-- parse_pdu_enveloppe_version: classify the outer envelope.  A 3-element
sequence starting with integer 0 or 1 is (possibly) SNMPv1 / SNMPv2c, a
4-element sequence starting with integer 3 is (possibly) SNMPv3; anything
else well-formed is a Verify error; an Incomplete DER error propagates,
any other DER error becomes a Verify error. -/
def parse_pdu_enveloppe_version (i : Buffer) : Except NomErr Nat :=
  match i.der with
  | Except.ok x =>
      match x.content with
      | BerObjectContent.Sequence v =>
          if v.length = 3 then
            match v.head? with
            | some e =>
                match e.as_u32 with
                | some 0 => Except.ok 1
                | some 1 => Except.ok 2
                | _ => Except.error NomErr.Error
            | none => Except.error NomErr.Error
          else if v.length = 4 then
            match v.head? with
            | some e =>
                if e.as_u32 = some 3 then Except.ok 3 else Except.error NomErr.Error
            | none => Except.error NomErr.Error
          else Except.error NomErr.Error
      | BerObjectContent.Other => Except.error NomErr.Error
  | Except.error NomErr.Incomplete => Except.error NomErr.Incomplete
  | Except.error _ => Except.error NomErr.Error

/-- The version-detection step at the head of SNMPState::parse: on a
session with no version yet, adopt a version the envelope classifier can
extract; otherwise leave the state alone. -/
def versionDetect (s : SNMPState) (i : Buffer) : SNMPState :=
  if s.version = 0 then
    match parse_pdu_enveloppe_version i with
    | Except.ok x => { s with version := x }
    | Except.error _ => s
  else s

/-- SNMPState::parse: on the first message attempt to take the session
version from the envelope, then decode the buffer; a decoded message is
handled by version, a decode failure raises MalformedData on the most
recent transaction and reports -1. -/
def SNMPState.parse (s : SNMPState) (i : Buffer) (direction : Nat) : SNMPState × Int :=
  let s := versionDetect s i
  match i.decode with
  | Except.ok (SnmpGenericMessage.V1 msg) => s.handle_snmp_v12 msg direction
  | Except.ok (SnmpGenericMessage.V2 msg) => s.handle_snmp_v12 msg direction
  | Except.ok (SnmpGenericMessage.V3 msg) => s.handle_snmp_v3 msg direction
  | Except.error _ => (s.set_event SNMPEvent.MalformedData, -1)

/-- SNMPState::get_tx_by_id: reverse linear search for the transaction with
internal id `tx_id + 1`. -/
def SNMPState.get_tx_by_id (s : SNMPState) (tx_id : Nat) : Option SNMPTransaction :=
  s.transactions.reverse.find? (fun tx => tx.id == tx_id + 1)

/-- Iterator::position as used by free_tx: index of the first element
satisfying the predicate. -/
def position {α : Type} (p : α → Bool) : List α → Option Nat
  | [] => none
  | a :: rest => if p a then some 0 else (position p rest).map (· + 1)

/-- SNMPState::free_tx: remove the transaction whose internal id is
`tx_id + 1` if present (the debug assertion of the source is a no-op on
the state). -/
def SNMPState.free_tx (s : SNMPState) (tx_id : Nat) : SNMPState :=
  match position (fun tx => tx.id == tx_id + 1) s.transactions with
  | some idx => { s with transactions := s.transactions.eraseIdx idx }
  | none => s

/-- The scan loop of SNMPState::get_tx_iterator: starting at position
`index` (the remaining suffix of the transaction list is passed alongside),
skip transactions below the minimum and return the first qualifying one
with its external id, the has-more flag and the advanced cursor. -/
def txIterLoop (len : Nat) (min_tx_id : Nat) :
    List SNMPTransaction → Nat → Option (SNMPTransaction × Nat × Bool × Nat)
  | [], _ => none
  | tx :: rest, index =>
      if tx.id < min_tx_id + 1 then txIterLoop len min_tx_id rest (index + 1)
      else some (tx, tx.id - 1, decide (len - index > 1), index + 1)

/-- SNMPState::get_tx_iterator: resume at the cursor, return the first
transaction with id ≥ min_tx_id + 1 together with its external id and the
has-more flag, persisting the cursor just past it; when nothing qualifies,
return nothing and leave the cursor unchanged. -/
def SNMPState.get_tx_iterator (s : SNMPState) (min_tx_id : Nat) (state : Nat) :
    Option (SNMPTransaction × Nat × Bool) × Nat :=
  match txIterLoop s.transactions.length min_tx_id (s.transactions.drop state) state with
  | some (tx, out_id, has_more, st2) => (some (tx, out_id, has_more), st2)
  | none => (none, state)

/-- The probe outcomes: ALPROTO_UNKNOWN (undetermined, ask again with more
bytes), ALPROTO_FAILED (rejected) and the registered SNMP protocol id
(detected).  The registered id is injected as a fixed constructor rather
than a mutable global. -/
inductive AppProto
  | unknown
  | failed
  | snmp
deriving DecidableEq, Repr

/-- rs_snmp_probing_parser: the protocol probe.  Input shorter than 4
bytes is rejected outright; otherwise the envelope classification decides:
success detects SNMP, an Incomplete error is undetermined, any other error
rejects. -/
def rs_snmp_probing (i : Buffer) : AppProto :=
  if i.len < 4 then AppProto.failed
  else
    match parse_pdu_enveloppe_version i with
    | Except.ok _ => AppProto.snmp
    | Except.error NomErr.Incomplete => AppProto.unknown
    | Except.error _ => AppProto.failed

/-- The operations the host may drive a session through: per-buffer parse
calls and free-by-external-id requests. -/
inductive SessionOp
  | parseOp (b : Buffer) (dir : Nat)
  | freeOp (k : Nat)
deriving DecidableEq, Repr

/-- Apply one host operation to a session. -/
def applyOp (s : SNMPState) : SessionOp → SNMPState
  | SessionOp.parseOp b d => (s.parse b d).1
  | SessionOp.freeOp k => s.free_tx k

/-- Run a sequence of host operations. -/
def runOps (s : SNMPState) : List SessionOp → SNMPState
  | [] => s
  | op :: rest => runOps (applyOp s op) rest

/-- Whether an operation creates a transaction: a parse whose buffer
decodes successfully. -/
def createsTx : SessionOp → Bool
  | SessionOp.parseOp b _ =>
      match b.decode with
      | Except.ok _ => true
      | Except.error _ => false
  | SessionOp.freeOp _ => false

/-- Number of transactions created by a sequence of operations. -/
def countTx (ops : List SessionOp) : Nat :=
  ops.countP createsTx

/-- The internal ids assigned to the transactions successively created
while running the operations from state `s`, in creation order. -/
def assignedIds (s : SNMPState) : List SessionOp → List Nat
  | [] => []
  | op :: rest =>
      (if createsTx op then [s.tx_id + 1] else []) ++ assignedIds (applyOp s op) rest

/-- Session states reachable from a fresh session by host operations. -/
def Reachable (s : SNMPState) : Prop :=
  ∃ ops, runOps SNMPState.new ops = s

/-- The session invariant: stored internal ids are strictly ascending by
position, 1-based, and bounded by the next-id counter. -/
def Inv (s : SNMPState) : Prop :=
  (s.transactions.map SNMPTransaction.id).Pairwise (· < ·) ∧
  ∀ n ∈ s.transactions.map SNMPTransaction.id, 1 ≤ n ∧ n ≤ s.tx_id

/-- The well-formed envelope shapes the probe accepts: a 3-element sequence
led by integer 0 or 1, or a 4-element sequence led by integer 3. -/
def goodEnvelope (x : BerObj) : Prop :=
  ∃ v e, x.content = BerObjectContent.Sequence v ∧ v.head? = some e ∧
    ((v.length = 3 ∧ (e.as_u32 = some 0 ∨ e.as_u32 = some 1)) ∨
     (v.length = 4 ∧ e.as_u32 = some 3))

/-- A sample v1 message (wire version 0) with community "public". -/
def msgV1public : SnmpMessage :=
  { version := 0, community := "public",
    pdu := SnmpPdu.Generic { pdu_type := 0, err := 0, vars := [43, 44] } }

/-- A sample buffer decoding to a v2c message (wire version 1). -/
def bufV2 : Buffer :=
  { len := 20,
    der := Except.ok ⟨BerObjectContent.Sequence [⟨some 1⟩, ⟨none⟩, ⟨none⟩]⟩,
    decode := Except.ok (SnmpGenericMessage.V2
      { version := 1, community := "public",
        pdu := SnmpPdu.Generic { pdu_type := 0, err := 0, vars := [43, 44] } }) }

/-- A sample buffer that fails to decode. -/
def bufBad : Buffer :=
  { len := 20, der := Except.error NomErr.Error, decode := Except.error NomErr.Error }

/-- A sample too-short buffer. -/
def bufShort : Buffer :=
  { len := 3, der := Except.error NomErr.Incomplete, decode := Except.error NomErr.Incomplete }

/-- A sample buffer whose envelope is a 3-element sequence led by integer 0. -/
def bufProbeV1 : Buffer :=
  { len := 8,
    der := Except.ok ⟨BerObjectContent.Sequence [⟨some 0⟩, ⟨none⟩, ⟨none⟩]⟩,
    decode := Except.error NomErr.Error }

/-- A sample v3 message with encrypted scoped PDU and USM user "admin". -/
def msgV3admin : SnmpV3Message :=
  { version := 3, security_params := SecurityParameters.USM ⟨"admin"⟩,
    data := ScopedPduData.Encrypted }

/-- A sample transaction with id 1. -/
def sampleTx1 : SNMPTransaction :=
  { version := 2, info := none, community := some "public", usm := none,
    encrypted := false, id := 1, events := [] }

/-- A sample transaction with id 2. -/
def sampleTx2 : SNMPTransaction :=
  { version := 2, info := none, community := some "public", usm := none,
    encrypted := false, id := 2, events := [] }

/-- A sample session holding two transactions. -/
def sampleSession : SNMPState :=
  { version := 2, transactions := [sampleTx1, sampleTx2], tx_id := 2 }

/-! ## Claim C1: probing on inputs shorter than 4 bytes -/

/-- Claim C1, counterexample: on a 3-byte buffer whose DER decoding is even
Incomplete, the probe does not return Undetermined (ALPROTO_UNKNOWN). -/
theorem C1_counterexample :
    bufShort.len < 4 ∧ rs_snmp_probing bufShort ≠ AppProto.unknown := by
  decide

/-- Claim C1 as amended: every input shorter than 4 bytes makes the probe
return Rejected (ALPROTO_FAILED), regardless of the decoder outcomes. -/
theorem C1_thm (i : Buffer) (h : i.len < 4) : rs_snmp_probing i = AppProto.failed := by
  simp [rs_snmp_probing, h]

/-- Witness for C1_thm on a concrete 3-byte buffer. -/
theorem C1_witness : bufShort.len < 4 ∧ rs_snmp_probing bufShort = AppProto.failed :=
  ⟨by decide, C1_thm bufShort (by decide)⟩

/-! ## Claim C2: v1/v2c handling under a session version mismatch -/

/-- Claim C2, counterexample: session version already v2c (2), a v1 message
(wire version 0) arrives; the created transaction's version is not v1 (1) —
new_tx stamps the session's version on it. -/
theorem C2_counterexample :
    ((SNMPState.mk 2 [] 0).handle_snmp_v12 msgV1public 0).1.transactions.map
      SNMPTransaction.version ≠ [1] := by
  decide

/-- Claim C2 as amended: a decoded v1/v2c message whose wire version
disagrees with the session version still succeeds (returns 0) and appends
exactly one transaction, whose version equals the session's version (not
the message's), whose event list holds VersionMismatch, and whose
community and PDU summary are populated from the message. -/
theorem C2_thm (s : SNMPState) (msg : SnmpMessage) (d : Nat)
    (hv : s.version ≠ msg.version + 1) :
    (s.handle_snmp_v12 msg d).2 = 0 ∧
    (s.handle_snmp_v12 msg d).1.transactions =
      s.transactions ++
        [{ version := s.version, info := some (mkPduInfo msg.pdu),
           community := some msg.community, usm := none, encrypted := false,
           id := s.tx_id + 1, events := [SNMPEvent.VersionMismatch.code] }] := by
  constructor
  · rfl
  · simp [SNMPState.handle_snmp_v12, SNMPState.new_tx, SNMPTransaction.new,
      add_pdu_info, set_event_tx, hv]

/-- Witness for C2_thm: fresh v2c session, v1 message with community
"public" and two oids. -/
theorem C2_witness :
    ((SNMPState.mk 2 [] 0).handle_snmp_v12 msgV1public 0).2 = 0 ∧
    ((SNMPState.mk 2 [] 0).handle_snmp_v12 msgV1public 0).1.transactions =
      [] ++
        [{ version := 2, info := some (mkPduInfo msgV1public.pdu),
           community := some msgV1public.community, usm := none, encrypted := false,
           id := 0 + 1, events := [SNMPEvent.VersionMismatch.code] }] :=
  C2_thm (SNMPState.mk 2 [] 0) msgV1public 0 (by decide)

/-! ## Helper lemmas -/

theorem versionDetect_transactions (s : SNMPState) (i : Buffer) :
    (versionDetect s i).transactions = s.transactions := by
  unfold versionDetect
  split
  · split <;> rfl
  · rfl

theorem versionDetect_tx_id (s : SNMPState) (i : Buffer) :
    (versionDetect s i).tx_id = s.tx_id := by
  unfold versionDetect
  split
  · split <;> rfl
  · rfl

theorem map_modifyLast {α β : Type} (f : α → α) (g : α → β) (hg : ∀ a, g (f a) = g a) :
    ∀ l : List α, (modifyLast f l).map g = l.map g
  | [] => rfl
  | [a] => by simp [modifyLast, hg]
  | a :: b :: t => by
      have ih := map_modifyLast f g hg (b :: t)
      simp only [modifyLast, List.map_cons] at ih ⊢
      rw [ih]

theorem length_modifyLast {α : Type} (f : α → α) :
    ∀ l : List α, (modifyLast f l).length = l.length
  | [] => rfl
  | [_] => rfl
  | a :: b :: t => by
      have ih := length_modifyLast f (b :: t)
      simp only [modifyLast, List.length_cons] at ih ⊢
      rw [ih]

theorem modifyLast_append_singleton {α : Type} (f : α → α) (l : List α) (a : α) :
    modifyLast f (l ++ [a]) = l ++ [f a] := by
  induction l with
  | nil => rfl
  | cons b t ih =>
      cases t with
      | nil => rfl
      | cons c t2 =>
          simp only [List.cons_append, List.append_eq, modifyLast] at ih ⊢
          rw [ih]

theorem position_eq_none {α : Type} (p : α → Bool) :
    ∀ l : List α, (position p l = none ↔ ∀ a ∈ l, p a = false)
  | [] => by simp [position]
  | a :: t => by
      by_cases h : p a
      · simp [position, h]
      · simp [position, h, position_eq_none p t]

theorem position_eq_some {α : Type} (p : α → Bool) :
    ∀ (l : List α) (i : Nat), position p l = some i →
      ∃ l₁ a l₂, l = l₁ ++ a :: l₂ ∧ p a = true ∧ l₁.length = i ∧ ∀ b ∈ l₁, p b = false
  | [], i => by simp [position]
  | a :: t, i => by
      by_cases h : p a
      · intro hp
        simp only [position, h, if_pos] at hp
        obtain rfl : (0 : Nat) = i := Option.some.inj hp
        exact ⟨[], a, t, rfl, h, rfl, by simp⟩
      · intro hp
        simp only [position, h, if_neg, Bool.false_eq_true, ite_false,
          Option.map_eq_some'] at hp
        obtain ⟨j, hj, rfl⟩ := hp
        obtain ⟨l₁, b, l₂, rfl, hb, hlen, hall⟩ := position_eq_some p t j hj
        refine ⟨a :: l₁, b, l₂, rfl, hb, by simp [hlen], ?_⟩
        intro c hc
        rcases List.mem_cons.mp hc with rfl | hc
        · exact Bool.not_eq_true _ ▸ h
        · exact hall c hc

theorem eraseIdx_append_length {α : Type} :
    ∀ (l₁ : List α) (a : α) (l₂ : List α),
      (l₁ ++ a :: l₂).eraseIdx l₁.length = l₁ ++ l₂
  | [], _, _ => rfl
  | b :: t, a, l₂ => by
      simp only [List.cons_append, List.length_cons, List.eraseIdx_cons_succ]
      rw [eraseIdx_append_length t a l₂]

theorem free_tx_tx_id (s : SNMPState) (k : Nat) : (s.free_tx k).tx_id = s.tx_id := by
  unfold SNMPState.free_tx
  split <;> rfl

theorem free_tx_version (s : SNMPState) (k : Nat) : (s.free_tx k).version = s.version := by
  unfold SNMPState.free_tx
  split <;> rfl

theorem txIterLoop_eq_none (len m : Nat) :
    ∀ (l : List SNMPTransaction) (index : Nat),
      (txIterLoop len m l index = none ↔ ∀ a ∈ l, a.id < m + 1)
  | [], index => by simp [txIterLoop]
  | tx :: rest, index => by
      by_cases h : tx.id < m + 1
      · simp [txIterLoop, h, txIterLoop_eq_none len m rest (index + 1)]
      · simp only [txIterLoop, if_neg h]
        constructor
        · intro hc
          exact absurd hc (by simp)
        · intro hall
          exact absurd (hall tx (by simp)) h

theorem txIterLoop_eq_some (len m : Nat) :
    ∀ (l : List SNMPTransaction) (index : Nat) (tx : SNMPTransaction)
      (oid : Nat) (hmore : Bool) (st2 : Nat),
      txIterLoop len m l index = some (tx, oid, hmore, st2) →
      ∃ l₁ l₂, l = l₁ ++ tx :: l₂ ∧ (∀ a ∈ l₁, a.id < m + 1) ∧ m + 1 ≤ tx.id ∧
        oid = tx.id - 1 ∧ st2 = index + l₁.length + 1 ∧
        hmore = decide (len - (index + l₁.length) > 1)
  | [], index, tx, oid, hmore, st2 => by simp [txIterLoop]
  | a :: rest, index, tx, oid, hmore, st2 => by
      by_cases h : a.id < m + 1
      · intro hp
        simp only [txIterLoop, if_pos h] at hp
        obtain ⟨l₁, l₂, rfl, hall, hge, ho, hst, hm⟩ :=
          txIterLoop_eq_some len m rest (index + 1) tx oid hmore st2 hp
        refine ⟨a :: l₁, l₂, rfl, ?_, hge, ho, by simp [hst]; omega, ?_⟩
        · intro b hb
          rcases List.mem_cons.mp hb with rfl | hb
          · exact h
          · exact hall b hb
        · rw [hm]
          congr 1
          simp
          omega
      · intro hp
        simp only [txIterLoop, if_neg h] at hp
        obtain ⟨rfl, rfl, rfl, rfl⟩ :=
          Prod.mk.injEq _ _ _ _ ▸ (by
            have := Option.some.inj hp
            exact ⟨congrArg (·.1) this, congrArg (·.2.1) this,
              congrArg (·.2.2.1) this, congrArg (·.2.2.2) this⟩ :
            a = tx ∧ a.id - 1 = oid ∧ decide (len - index > 1) = hmore ∧ index + 1 = st2)
        exact ⟨[], rest, rfl, by simp, Nat.le_of_not_lt h, rfl, by simp, by simp⟩

theorem pairwise_le_getLast :
    ∀ (l : List SNMPTransaction) (last : SNMPTransaction),
      (l.map SNMPTransaction.id).Pairwise (· < ·) →
      l.getLast? = some last → ∀ tx ∈ l, tx.id ≤ last.id
  | [], _, _, hl => by simp at hl
  | [a], last, _, hl => by
      obtain rfl : a = last := Option.some.inj hl
      simp
  | a :: b :: t, last, hp, hl => by
      have hl2 : (b :: t).getLast? = some last := hl
      have hp2 : ((b :: t).map SNMPTransaction.id).Pairwise (· < ·) :=
        (List.pairwise_cons.mp hp).2
      have ih := pairwise_le_getLast (b :: t) last hp2 hl2
      intro tx htx
      rcases List.mem_cons.mp htx with rfl | htx
      · have hlast_mem : last ∈ b :: t := by
          have := List.mem_getLast?_eq_getLast hl2
          obtain ⟨h, rfl⟩ := this
          exact List.getLast_mem h
        have : tx.id < last.id :=
          (List.pairwise_cons.mp hp).1 last.id (List.mem_map_of_mem SNMPTransaction.id hlast_mem)
        exact Nat.le_of_lt this
      · exact ih tx htx

theorem handle_snmp_v12_len (s : SNMPState) (msg : SnmpMessage) (d : Nat) :
    (s.handle_snmp_v12 msg d).1.transactions.length = s.transactions.length + 1 := by
  simp [SNMPState.handle_snmp_v12, SNMPState.new_tx]

theorem free_tx_no_match (s : SNMPState) (k : Nat)
    (h : ∀ tx ∈ s.transactions, tx.id ≠ k + 1) : s.free_tx k = s := by
  have hp : position (fun tx => tx.id == k + 1) s.transactions = none :=
    (position_eq_none _ _).mpr (fun a ha => by simpa using h a ha)
  simp [SNMPState.free_tx, hp]

theorem parse_ok_v1_len (s : SNMPState) (i2 : Buffer) (d2 : Nat) (msg : SnmpMessage)
    (hd2 : i2.decode = Except.ok (SnmpGenericMessage.V1 msg)) :
    (s.parse i2 d2).1.transactions.length = s.transactions.length + 1 := by
  simp [SNMPState.parse, hd2, handle_snmp_v12_len, versionDetect_transactions]

/-! ## Claim C3: exact 0-based/1-based id translation at every boundary -/

/-- Claim C3: lookup with external id k only ever returns the transaction
with internal id k + 1; free with external id k either removes nothing (and
then no transaction has internal id k + 1) or removes exactly a transaction
with internal id k + 1; the iterator's external id is the internal id minus
one, exactly (adding one recovers the internal id). -/
theorem C3_thm (s : SNMPState) (k : Nat) :
    (∀ tx, s.get_tx_by_id k = some tx → tx.id = k + 1) ∧
    ((s.free_tx k = s ∧ ∀ tx ∈ s.transactions, tx.id ≠ k + 1) ∨
      ∃ l₁ tx l₂, s.transactions = l₁ ++ tx :: l₂ ∧ tx.id = k + 1 ∧
        (s.free_tx k).transactions = l₁ ++ l₂) ∧
    (∀ m st tx ext hmore st2,
      s.get_tx_iterator m st = (some (tx, ext, hmore), st2) →
      ext = tx.id - 1 ∧ ext + 1 = tx.id) := by
  refine ⟨?_, ?_, ?_⟩
  · intro tx h
    have := List.find?_some h
    simpa using this
  · cases hp : position (fun tx => tx.id == k + 1) s.transactions with
    | none =>
        left
        constructor
        · simp [SNMPState.free_tx, hp]
        · intro tx htx
          have := (position_eq_none _ s.transactions).mp hp tx htx
          simpa using this
    | some i =>
        right
        obtain ⟨l₁, a, l₂, hdec, ha, hlen, -⟩ :=
          position_eq_some _ s.transactions i hp
        refine ⟨l₁, a, l₂, hdec, by simpa using ha, ?_⟩
        simp only [SNMPState.free_tx, hp]
        rw [hdec, ← hlen, eraseIdx_append_length]
  · intro m st tx ext hmore st2 h
    unfold SNMPState.get_tx_iterator at h
    cases hL : txIterLoop s.transactions.length m (s.transactions.drop st) st with
    | none => rw [hL] at h; exact absurd (congrArg Prod.fst h) (by simp)
    | some r =>
        obtain ⟨a, b, c, d⟩ := r
        rw [hL] at h
        have h1 : a = tx := congrArg (fun q => ((q.1.getD (tx, ext, hmore)).1)) h
        have h2 : b = ext := congrArg (fun q => ((q.1.getD (tx, ext, hmore)).2.1)) h
        subst h1; subst h2
        obtain ⟨-, -, -, -, hge, ho, -, -⟩ :=
          txIterLoop_eq_some _ _ _ _ _ _ _ _ hL
        subst ho
        exact ⟨rfl, by omega⟩

/-- Witness for C3_thm: looking up external id 0 in the sample session
returns the transaction with internal id 1. -/
theorem C3_witness : sampleTx1.id = 0 + 1 :=
  (C3_thm sampleSession 0).1 sampleTx1 (by decide)

/-! ## Claim C6: free-by-id removes exactly the match; get after free -/

/-- Claim C6: with distinct internal ids, free_tx k removes exactly the
transactions whose id is k + 1 and keeps every other transaction; freeing
again finds nothing to remove; lookup after the removal returns nothing,
as does lookup of an id no transaction carries. -/
theorem C6_thm (s : SNMPState) (k : Nat)
    (hu : (s.transactions.map SNMPTransaction.id).Nodup) :
    (s.free_tx k).transactions = s.transactions.filter (fun tx => tx.id != k + 1) ∧
    (s.free_tx k).free_tx k = s.free_tx k ∧
    (s.free_tx k).get_tx_by_id k = none ∧
    ((∀ tx ∈ s.transactions, tx.id ≠ k + 1) → s.get_tx_by_id k = none) := by
  have hfilter :
      (s.free_tx k).transactions = s.transactions.filter (fun tx => tx.id != k + 1) := by
    cases hp : position (fun tx => tx.id == k + 1) s.transactions with
    | none =>
        have hall := (position_eq_none _ s.transactions).mp hp
        simp only [SNMPState.free_tx, hp]
        exact (List.filter_eq_self.mpr (fun a ha => by simpa using hall a ha)).symm
    | some i =>
        obtain ⟨l₁, a, l₂, hdec, ha, hlen, hall⟩ :=
          position_eq_some _ s.transactions i hp
        have haid : a.id = k + 1 := by simpa using ha
        have hl2 : ∀ b ∈ l₂, b.id ≠ k + 1 := by
          rw [hdec] at hu
          simp only [List.map_append, List.map_cons] at hu
          have h2 := (List.nodup_append.mp hu).2.1
          have h3 := (List.nodup_cons.mp h2).1
          intro b hb hbid
          exact h3 (by
            rw [← haid] at hbid
            exact hbid ▸ List.mem_map_of_mem SNMPTransaction.id hb)
        simp only [SNMPState.free_tx, hp]
        rw [hdec, ← hlen, eraseIdx_append_length, List.filter_append]
        rw [List.filter_eq_self.mpr (fun b hb => by simp [(by simpa using hall b hb : ¬ b.id = k + 1)])]
        rw [List.filter_cons_of_neg (by simp [haid])]
        rw [List.filter_eq_self.mpr (fun b hb => by simp [hl2 b hb])]
  have hnone2 : ∀ tx ∈ (s.free_tx k).transactions, tx.id ≠ k + 1 := by
    rw [hfilter]
    intro tx htx
    have := List.of_mem_filter htx
    simpa using this
  refine ⟨hfilter, ?_, ?_, ?_⟩
  · exact free_tx_no_match (s.free_tx k) k hnone2
  · unfold SNMPState.get_tx_by_id
    exact List.find?_eq_none.mpr (fun tx htx => by
      simp [hnone2 tx (List.mem_reverse.mp htx)])
  · intro hall
    unfold SNMPState.get_tx_by_id
    exact List.find?_eq_none.mpr (fun tx htx => by
      simp [hall tx (List.mem_reverse.mp htx)])

/-- Witness for C6_thm: freeing external id 0 in the sample session, then
looking external id 0 up, finds nothing. -/
theorem C6_witness : (sampleSession.free_tx 0).get_tx_by_id 0 = none :=
  (C6_thm sampleSession 0 (by decide)).2.2.1

/-! ## Claim C7: decode failure leaves the session intact -/

/-- Claim C7: when the buffer fails to decode, parse reports -1, creates no
transaction (the counter and the list length are unchanged), only appends
MalformedData to the most recent transaction's event list (dropping the
event silently when the session has none), and the session stays usable:
a following successful parse still appends a transaction. -/
theorem C7_thm (s : SNMPState) (i : Buffer) (d : Nat) (e : NomErr)
    (hd : i.decode = Except.error e) :
    (s.parse i d).2 = -1 ∧
    (s.parse i d).1.tx_id = s.tx_id ∧
    (s.parse i d).1.transactions =
      modifyLast (fun tx => set_event_tx tx SNMPEvent.MalformedData) s.transactions ∧
    (s.transactions = [] → (s.parse i d).1.transactions = []) ∧
    (s.parse i d).1.transactions.length = s.transactions.length ∧
    (∀ l tx0, s.transactions = l ++ [tx0] →
      (s.parse i d).1.transactions = l ++ [set_event_tx tx0 SNMPEvent.MalformedData]) ∧
    (∀ i2 d2 msg, i2.decode = Except.ok (SnmpGenericMessage.V1 msg) →
      ((s.parse i d).1.parse i2 d2).1.transactions.length = s.transactions.length + 1) := by
  have hparse : s.parse i d =
      ((versionDetect s i).set_event SNMPEvent.MalformedData, -1) := by
    unfold SNMPState.parse
    rw [hd]
  have htrans : (s.parse i d).1.transactions =
      modifyLast (fun tx => set_event_tx tx SNMPEvent.MalformedData) s.transactions := by
    rw [hparse]
    simp [SNMPState.set_event, versionDetect_transactions]
  refine ⟨by rw [hparse], ?_, htrans, ?_, ?_, ?_, ?_⟩
  · rw [hparse]
    simp [SNMPState.set_event, versionDetect_tx_id]
  · intro h0
    rw [htrans, h0]
    rfl
  · rw [htrans, length_modifyLast]
  · intro l tx0 hdecomp
    rw [htrans, hdecomp, modifyLast_append_singleton]
  · intro i2 d2 msg hd2
    rw [parse_ok_v1_len _ i2 d2 msg hd2, htrans, length_modifyLast]

/-- Witness for C7_thm on the sample session and a buffer that fails to
decode. -/
theorem C7_witness :
    (sampleSession.parse bufBad 0).2 = -1 ∧
    (sampleSession.parse bufBad 0).1.tx_id = sampleSession.tx_id :=
  ⟨(C7_thm sampleSession bufBad 0 NomErr.Error rfl).1,
   (C7_thm sampleSession bufBad 0 NomErr.Error rfl).2.1⟩

/-! ## Claim C4: the iterator enumerates each transaction exactly once -/

/-- Claim C4: over a session with sorted, 1-based ids, calling the iterator
with min_id 0 and cursor k yields the k-th transaction with cursor k + 1
and has_more false exactly on the last one (so chaining cursors yields each
transaction once, in ascending order); a cursor at or past the end yields
nothing; with a fresh cursor and min_id one past the last returned external
id nothing qualifies; and a call that yields nothing leaves the cursor
unchanged. -/
theorem C4_thm (s : SNMPState)
    (hsort : (s.transactions.map SNMPTransaction.id).Pairwise (· < ·))
    (hpos : ∀ tx ∈ s.transactions, 1 ≤ tx.id) :
    (∀ k, (hk : k < s.transactions.length) →
      s.get_tx_iterator 0 k =
        (some (s.transactions[k], s.transactions[k].id - 1,
          decide (k + 1 < s.transactions.length)), k + 1)) ∧
    (∀ k, s.transactions.length ≤ k → s.get_tx_iterator 0 k = (none, k)) ∧
    (∀ last, s.transactions.getLast? = some last →
      (s.get_tx_iterator (last.id - 1 + 1) 0).1 = none) ∧
    (∀ m st, (s.get_tx_iterator m st).1 = none → (s.get_tx_iterator m st).2 = st) := by
  refine ⟨?_, ?_, ?_, ?_⟩
  · intro k hk
    have hmem : s.transactions[k] ∈ s.transactions := List.getElem_mem hk
    have hid : ¬ s.transactions[k].id < 0 + 1 := by
      have := hpos _ hmem
      omega
    have hdec : decide (s.transactions.length - k > 1) =
        decide (k + 1 < s.transactions.length) := by
      rw [decide_eq_decide]
      omega
    unfold SNMPState.get_tx_iterator
    rw [List.drop_eq_getElem_cons hk]
    simp only [txIterLoop, if_neg hid]
    rw [hdec]
  · intro k hlek
    unfold SNMPState.get_tx_iterator
    rw [List.drop_eq_nil_of_le hlek]
    simp [txIterLoop]
  · intro last hlast
    have hmem : last ∈ s.transactions := by
      obtain ⟨h, rfl⟩ := List.mem_getLast?_eq_getLast hlast
      exact List.getLast_mem h
    have h1 : 1 ≤ last.id := hpos last hmem
    have hle := pairwise_le_getLast s.transactions last hsort hlast
    have hnone : txIterLoop s.transactions.length (last.id - 1 + 1)
        (s.transactions.drop 0) 0 = none := by
      rw [List.drop_zero]
      exact (txIterLoop_eq_none _ _ _ _).mpr (fun a ha => by
        have := hle a ha
        omega)
    unfold SNMPState.get_tx_iterator
    rw [hnone]
  · intro m st h
    unfold SNMPState.get_tx_iterator at h ⊢
    cases hL : txIterLoop s.transactions.length m (s.transactions.drop st) st with
    | none => rfl
    | some r =>
        obtain ⟨a, b, c, d2⟩ := r
        rw [hL] at h
        simp at h

/-- Witness for C4_thm: second step of the iteration over the sample
session returns the second transaction, external id 1, has_more false,
cursor 2. -/
theorem C4_witness :
    sampleSession.get_tx_iterator 0 1 = (some (sampleTx2, 1, false), 2) := by
  have h := (C4_thm sampleSession (by decide) (by decide)).1 1 (by decide)
  exact h.trans (by decide)

/-! ## Claim C8: v3 message handling -/

/-- Claim C8: handling a decoded v3 message appends one transaction whose
PDU summary is present exactly for a plaintext scoped PDU (with encrypted
false), whose encrypted flag is set exactly for an encrypted scoped PDU
(with the summary absent), whose security_user is the USM user name when
USM parameters are present (and then no UnknownSecurityModel event is
raised), and which carries the UnknownSecurityModel event exactly when the
security model is not USM — with the other fields still populated; with a
matching version and USM parameters the event list is empty. -/
theorem C8_thm (s : SNMPState) (msg : SnmpV3Message) (d : Nat) :
    ∃ tx, (s.handle_snmp_v3 msg d).1.transactions = s.transactions ++ [tx] ∧
      tx.info = (match msg.data with
        | ScopedPduData.Plaintext pdu => some (mkPduInfo pdu.data)
        | ScopedPduData.Encrypted => none) ∧
      tx.encrypted = (match msg.data with
        | ScopedPduData.Plaintext _ => false
        | ScopedPduData.Encrypted => true) ∧
      tx.usm = (match msg.security_params with
        | SecurityParameters.USM u => some u.msg_user_name
        | SecurityParameters.Other => none) ∧
      (SNMPEvent.UnknownSecurityModel.code ∈ tx.events ↔
        msg.security_params = SecurityParameters.Other) ∧
      (s.version = msg.version → msg.security_params ≠ SecurityParameters.Other →
        tx.events = []) := by
  obtain ⟨ver, sp, data⟩ := msg
  by_cases hv : s.version ≠ ver
  all_goals cases data
  all_goals cases sp
  all_goals
    (simp only [SNMPState.handle_snmp_v3, SNMPState.new_tx, SNMPTransaction.new,
       add_pdu_info, set_event_tx]
     refine ⟨_, rfl, ?_, ?_, ?_, ?_, ?_⟩ <;> simp [SNMPEvent.code, hv])

/-- Witness for C8_thm: the encrypted USM "admin" scenario records the
security user on the single appended transaction. -/
theorem C8_witness :
    ((SNMPState.mk 3 [] 0).handle_snmp_v3 msgV3admin 0).1.transactions.map
      SNMPTransaction.usm = [some "admin"] := by
  obtain ⟨tx, htx, -, -, husm, -, -⟩ := C8_thm (SNMPState.mk 3 [] 0) msgV3admin 0
  rw [htx]
  simp only [msgV3admin] at husm
  simp [husm]

/-! ## Claim C5: ids are assigned strictly increasing from 1 -/

theorem parse_tx_id (s : SNMPState) (b : Buffer) (d : Nat) :
    (s.parse b d).1.tx_id =
      if createsTx (SessionOp.parseOp b d) then s.tx_id + 1 else s.tx_id := by
  unfold SNMPState.parse createsTx
  cases hb : b.decode with
  | ok m =>
      cases m <;>
        simp [hb, SNMPState.handle_snmp_v12, SNMPState.handle_snmp_v3,
          SNMPState.new_tx, versionDetect_tx_id]
  | error e => simp [hb, SNMPState.set_event, versionDetect_tx_id]

theorem applyOp_tx_id (s : SNMPState) (op : SessionOp) :
    (applyOp s op).tx_id = if createsTx op then s.tx_id + 1 else s.tx_id := by
  cases op with
  | parseOp b d => exact parse_tx_id s b d
  | freeOp k => simp [applyOp, free_tx_tx_id, createsTx]

theorem assignedIds_eq :
    ∀ (ops : List SessionOp) (s : SNMPState),
      assignedIds s ops = List.range' (s.tx_id + 1) (countTx ops)
  | [], s => by simp [assignedIds, countTx]
  | op :: rest, s => by
      have ih := assignedIds_eq rest (applyOp s op)
      have htx := applyOp_tx_id s op
      by_cases hc : createsTx op
      · have h1 : (applyOp s op).tx_id = s.tx_id + 1 := by rw [htx, if_pos hc]
        have h2 : countTx (op :: rest) = countTx rest + 1 := by
          simp [countTx, List.countP_cons, hc]
        rw [h2, List.range'_succ]
        simp only [assignedIds, hc, ite_true, List.singleton_append]
        rw [ih, h1]
      · have h1 : (applyOp s op).tx_id = s.tx_id := by rw [htx, if_neg hc]
        have h2 : countTx (op :: rest) = countTx rest := by
          simp [countTx, List.countP_cons, hc]
        rw [h2]
        simp [assignedIds, hc, ih, h1]

/-- Claim C5: over any sequence of host operations on a fresh session —
however many frees, in whatever order — the internal ids assigned to the
successively created transactions are exactly 1, 2, 3, ..., hence strictly
increasing starting at 1. -/
theorem C5_thm (ops : List SessionOp) :
    assignedIds SNMPState.new ops = List.range' 1 (countTx ops) ∧
    (assignedIds SNMPState.new ops).Pairwise (· < ·) := by
  have h := assignedIds_eq ops SNMPState.new
  have h0 : SNMPState.new.tx_id + 1 = 1 := rfl
  rw [h0] at h
  exact ⟨h, h ▸ List.pairwise_lt_range' 1 (countTx ops)⟩

/-- Witness for C5_thm: parse, free, parse assigns ids 1 and 2. -/
theorem C5_witness :
    assignedIds SNMPState.new
      [SessionOp.parseOp bufV2 0, SessionOp.freeOp 0, SessionOp.parseOp bufV2 1] =
      List.range' 1 2 :=
  (C5_thm [SessionOp.parseOp bufV2 0, SessionOp.freeOp 0, SessionOp.parseOp bufV2 1]).1

/-! ## Claim C9: envelope classification drives the probe -/

theorem ppev_der_ok (b : Buffer) (x : BerObj) (hder : b.der = Except.ok x)
    (hng : ¬ goodEnvelope x) :
    parse_pdu_enveloppe_version b = Except.error NomErr.Error := by
  obtain ⟨content⟩ := x
  cases content with
  | Other => simp [parse_pdu_enveloppe_version, hder]
  | Sequence v =>
      by_cases h3 : v.length = 3
      · cases hh : v.head? with
        | none => simp [parse_pdu_enveloppe_version, hder, h3, hh]
        | some e =>
            cases ha : e.as_u32 with
            | none => simp [parse_pdu_enveloppe_version, hder, h3, hh, ha]
            | some n =>
                match n, ha with
                | 0, ha => exact absurd ⟨v, e, rfl, hh, Or.inl ⟨h3, Or.inl ha⟩⟩ hng
                | 1, ha => exact absurd ⟨v, e, rfl, hh, Or.inl ⟨h3, Or.inr ha⟩⟩ hng
                | (n + 2), ha =>
                    simp [parse_pdu_enveloppe_version, hder, h3, hh, ha]
      · by_cases h4 : v.length = 4
        · cases hh : v.head? with
          | none => simp [parse_pdu_enveloppe_version, hder, h3, h4, hh]
          | some e =>
              by_cases ha3 : e.as_u32 = some 3
              · exact absurd ⟨v, e, rfl, hh, Or.inr ⟨h4, ha3⟩⟩ hng
              · simp [parse_pdu_enveloppe_version, hder, h3, h4, hh, ha3]
        · simp [parse_pdu_enveloppe_version, hder, h3, h4]

theorem ppev_der_incomplete (b : Buffer) (h : b.der = Except.error NomErr.Incomplete) :
    parse_pdu_enveloppe_version b = Except.error NomErr.Incomplete := by
  simp [parse_pdu_enveloppe_version, h]

theorem ppev_der_err (b : Buffer) (e : NomErr) (h : b.der = Except.error e)
    (hne : e ≠ NomErr.Incomplete) :
    parse_pdu_enveloppe_version b = Except.error NomErr.Error := by
  cases e with
  | Incomplete => exact absurd rfl hne
  | Error => simp [parse_pdu_enveloppe_version, h]
  | Failure => simp [parse_pdu_enveloppe_version, h]

/-- Claim C9: on an input of at least 4 bytes, a well-formed 3-element
envelope led by integer 0 classifies as version 1 and the probe detects
SNMP, led by integer 1 as version 2c, a 4-element envelope led by integer 3
as version 3; any other well-formed envelope shape makes the probe reject;
an Incomplete decode error makes it return Undetermined; any other decode
error makes it reject. -/
theorem C9_thm (b : Buffer) (hblen : 4 ≤ b.len) :
    (∀ v e, b.der = Except.ok ⟨BerObjectContent.Sequence v⟩ → v.head? = some e →
      ((v.length = 3 → e.as_u32 = some 0 →
          parse_pdu_enveloppe_version b = Except.ok 1 ∧
          rs_snmp_probing b = AppProto.snmp) ∧
       (v.length = 3 → e.as_u32 = some 1 →
          parse_pdu_enveloppe_version b = Except.ok 2 ∧
          rs_snmp_probing b = AppProto.snmp) ∧
       (v.length = 4 → e.as_u32 = some 3 →
          parse_pdu_enveloppe_version b = Except.ok 3 ∧
          rs_snmp_probing b = AppProto.snmp))) ∧
    (∀ x, b.der = Except.ok x → ¬ goodEnvelope x →
      rs_snmp_probing b = AppProto.failed) ∧
    (b.der = Except.error NomErr.Incomplete →
      parse_pdu_enveloppe_version b = Except.error NomErr.Incomplete ∧
      rs_snmp_probing b = AppProto.unknown) ∧
    (∀ e, b.der = Except.error e → e ≠ NomErr.Incomplete →
      rs_snmp_probing b = AppProto.failed) := by
  have hlt : ¬ b.len < 4 := by omega
  refine ⟨?_, ?_, ?_, ?_⟩
  · intro v e hder hh
    refine ⟨?_, ?_, ?_⟩
    · intro h3 ha
      have hp : parse_pdu_enveloppe_version b = Except.ok 1 := by
        simp [parse_pdu_enveloppe_version, hder, h3, hh, ha]
      exact ⟨hp, by simp [rs_snmp_probing, hlt, hp]⟩
    · intro h3 ha
      have hp : parse_pdu_enveloppe_version b = Except.ok 2 := by
        simp [parse_pdu_enveloppe_version, hder, h3, hh, ha]
      exact ⟨hp, by simp [rs_snmp_probing, hlt, hp]⟩
    · intro h4 ha
      have hp : parse_pdu_enveloppe_version b = Except.ok 3 := by
        simp [parse_pdu_enveloppe_version, hder, h4, hh, ha]
      exact ⟨hp, by simp [rs_snmp_probing, hlt, hp]⟩
  · intro x hder hng
    have hp := ppev_der_ok b x hder hng
    simp [rs_snmp_probing, hlt, hp]
  · intro hder
    have hp := ppev_der_incomplete b hder
    exact ⟨hp, by simp [rs_snmp_probing, hlt, hp]⟩
  · intro e hder hne
    have hp := ppev_der_err b e hder hne
    simp [rs_snmp_probing, hlt, hp]

/-- Witness for C9_thm: an 8-byte buffer whose envelope is a 3-element
sequence led by integer 0 is classified as (possible) SNMPv1 and detected. -/
theorem C9_witness :
    parse_pdu_enveloppe_version bufProbeV1 = Except.ok 1 ∧
    rs_snmp_probing bufProbeV1 = AppProto.snmp :=
  ((C9_thm bufProbeV1 (by decide)).1 [⟨some 0⟩, ⟨none⟩, ⟨none⟩] ⟨some 0⟩
    rfl rfl).1 rfl rfl

/-! ## Claim C10: the reachable-state invariant and the has_more flag -/

theorem handle_snmp_v12_tx_id (s : SNMPState) (msg : SnmpMessage) (d : Nat) :
    (s.handle_snmp_v12 msg d).1.tx_id = s.tx_id + 1 := rfl

theorem handle_snmp_v3_tx_id (s : SNMPState) (msg : SnmpV3Message) (d : Nat) :
    (s.handle_snmp_v3 msg d).1.tx_id = s.tx_id + 1 := rfl

theorem handle_snmp_v12_shape (s : SNMPState) (msg : SnmpMessage) (d : Nat) :
    ∃ tx, (s.handle_snmp_v12 msg d).1.transactions = s.transactions ++ [tx] ∧
      tx.id = s.tx_id + 1 := by
  by_cases hv : s.version ≠ msg.version + 1 <;>
    (simp only [SNMPState.handle_snmp_v12, SNMPState.new_tx, SNMPTransaction.new,
       add_pdu_info, set_event_tx]
     refine ⟨_, rfl, ?_⟩
     simp [hv])

theorem handle_snmp_v3_shape (s : SNMPState) (msg : SnmpV3Message) (d : Nat) :
    ∃ tx, (s.handle_snmp_v3 msg d).1.transactions = s.transactions ++ [tx] ∧
      tx.id = s.tx_id + 1 := by
  obtain ⟨ver, sp, data⟩ := msg
  by_cases hv : s.version ≠ ver
  all_goals cases data
  all_goals cases sp
  all_goals
    (simp only [SNMPState.handle_snmp_v3, SNMPState.new_tx, SNMPTransaction.new,
       add_pdu_info, set_event_tx]
     refine ⟨_, rfl, ?_⟩
     simp [hv])

theorem inv_push_lists (txs : List SNMPTransaction) (txid : Nat)
    (hp : (txs.map SNMPTransaction.id).Pairwise (· < ·))
    (hb : ∀ n ∈ txs.map SNMPTransaction.id, 1 ≤ n ∧ n ≤ txid)
    (tx : SNMPTransaction) (hid : tx.id = txid + 1) :
    ((txs ++ [tx]).map SNMPTransaction.id).Pairwise (· < ·) ∧
    ∀ n ∈ (txs ++ [tx]).map SNMPTransaction.id, 1 ≤ n ∧ n ≤ txid + 1 := by
  constructor
  · rw [List.map_append, List.pairwise_append]
    refine ⟨hp, by simp, ?_⟩
    intro a ha bb hbb
    simp only [List.map_cons, List.map_nil, List.mem_singleton] at hbb
    subst hbb
    rw [hid]
    have := hb a ha
    omega
  · intro n hn
    rw [List.map_append] at hn
    rcases List.mem_append.mp hn with hn | hn
    · have := hb n hn
      exact ⟨this.1, by omega⟩
    · simp only [List.map_cons, List.map_nil, List.mem_singleton] at hn
      subst hn
      rw [hid]
      omega

theorem inv_versionDetect (s : SNMPState) (i : Buffer) (hs : Inv s) :
    Inv (versionDetect s i) := by
  unfold Inv at hs ⊢
  rw [versionDetect_transactions, versionDetect_tx_id]
  exact hs

theorem set_event_transactions (s : SNMPState) (ev : SNMPEvent) :
    (s.set_event ev).transactions =
      modifyLast (fun tx => set_event_tx tx ev) s.transactions := rfl

theorem set_event_tx_id (s : SNMPState) (ev : SNMPEvent) :
    (s.set_event ev).tx_id = s.tx_id := rfl

theorem inv_set_event (s : SNMPState) (ev : SNMPEvent) (hs : Inv s) :
    Inv (s.set_event ev) := by
  unfold Inv at hs ⊢
  rw [set_event_transactions, set_event_tx_id,
    map_modifyLast (fun tx => set_event_tx tx ev) SNMPTransaction.id
      (fun a => rfl) s.transactions]
  exact hs

theorem inv_parse (s : SNMPState) (i : Buffer) (d : Nat) (hs : Inv s) :
    Inv (s.parse i d).1 := by
  have hs2 : Inv (versionDetect s i) := inv_versionDetect s i hs
  unfold SNMPState.parse
  cases hdec : i.decode with
  | error e => exact inv_set_event _ _ hs2
  | ok m =>
      cases m with
      | V1 msg =>
          obtain ⟨tx, htr, hid⟩ := handle_snmp_v12_shape (versionDetect s i) msg d
          have htx := handle_snmp_v12_tx_id (versionDetect s i) msg d
          have := inv_push_lists _ _ hs2.1 hs2.2 tx hid
          exact ⟨htr ▸ this.1, fun n hn => htx ▸ (htr ▸ this.2) n (htr ▸ hn)⟩
      | V2 msg =>
          obtain ⟨tx, htr, hid⟩ := handle_snmp_v12_shape (versionDetect s i) msg d
          have htx := handle_snmp_v12_tx_id (versionDetect s i) msg d
          have := inv_push_lists _ _ hs2.1 hs2.2 tx hid
          exact ⟨htr ▸ this.1, fun n hn => htx ▸ (htr ▸ this.2) n (htr ▸ hn)⟩
      | V3 msg =>
          obtain ⟨tx, htr, hid⟩ := handle_snmp_v3_shape (versionDetect s i) msg d
          have htx := handle_snmp_v3_tx_id (versionDetect s i) msg d
          have := inv_push_lists _ _ hs2.1 hs2.2 tx hid
          exact ⟨htr ▸ this.1, fun n hn => htx ▸ (htr ▸ this.2) n (htr ▸ hn)⟩

theorem inv_free (s : SNMPState) (k : Nat) (hs : Inv s) : Inv (s.free_tx k) := by
  obtain ⟨hp, hb⟩ := hs
  unfold SNMPState.free_tx
  cases hpos : position (fun tx => tx.id == k + 1) s.transactions with
  | none => exact ⟨hp, hb⟩
  | some i =>
      have hsub : ((s.transactions.eraseIdx i).map SNMPTransaction.id).Sublist
          (s.transactions.map SNMPTransaction.id) :=
        (List.eraseIdx_sublist s.transactions i).map _
      exact ⟨List.Pairwise.sublist hsub hp, fun n hn => hb n (hsub.subset hn)⟩

theorem inv_applyOp (s : SNMPState) (op : SessionOp) (hs : Inv s) :
    Inv (applyOp s op) := by
  cases op with
  | parseOp b d => exact inv_parse s b d hs
  | freeOp k => exact inv_free s k hs

theorem inv_runOps :
    ∀ (ops : List SessionOp) (s : SNMPState), Inv s → Inv (runOps s ops)
  | [], _, hs => hs
  | op :: rest, s, hs => inv_runOps rest _ (inv_applyOp s op hs)

theorem inv_new : Inv SNMPState.new := by
  constructor <;> simp [SNMPState.new]

theorem inv_reachable (s : SNMPState) (hr : Reachable s) : Inv s := by
  obtain ⟨ops, rfl⟩ := hr
  exact inv_runOps ops _ inv_new

/-- Claim C10: in every reachable session state the transaction sequence is
sorted strictly ascending by internal id and every stored id is bounded by
the next-id counter; and whenever the iterator returns a transaction, its
has_more flag is true exactly when a further qualifying transaction
(internal id at least min + 1, i.e. external id at least min) remains after
the returned one. -/
theorem C10_thm (s : SNMPState) (hr : Reachable s) :
    (s.transactions.map SNMPTransaction.id).Pairwise (· < ·) ∧
    (∀ tx ∈ s.transactions, tx.id ≤ s.tx_id) ∧
    (∀ m st tx ext hmore st2,
      s.get_tx_iterator m st = (some (tx, ext, hmore), st2) →
      (hmore = true ↔ ∃ tx2 ∈ s.transactions.drop st2, m + 1 ≤ tx2.id)) := by
  obtain ⟨hp, hb⟩ := inv_reachable s hr
  refine ⟨hp, ?_, ?_⟩
  · intro tx htx
    exact (hb tx.id (List.mem_map_of_mem _ htx)).2
  · intro m st tx ext hmore st2 h
    unfold SNMPState.get_tx_iterator at h
    cases hL : txIterLoop s.transactions.length m (s.transactions.drop st) st with
    | none => rw [hL] at h; simp at h
    | some r =>
        obtain ⟨a, ob, c, d2⟩ := r
        rw [hL] at h
        simp only [Prod.mk.injEq, Option.some.injEq] at h
        obtain ⟨⟨rfl, rfl, rfl⟩, rfl⟩ := h
        obtain ⟨l₁, l₂, hdec, hall, hge, hob, hst2, hc⟩ :=
          txIterLoop_eq_some _ _ _ _ _ _ _ _ hL
        have hlen : s.transactions.length - st = l₁.length + 1 + l₂.length := by
          have h0 := congrArg List.length hdec
          simp at h0
          omega
        have hdrop2 : s.transactions.drop d2 = l₂ := by
          have e1 : d2 = st + (l₁.length + 1) := by omega
          rw [e1, ← List.drop_drop, hdec,
            show l₁ ++ a :: l₂ = (l₁ ++ [a]) ++ l₂ by simp,
            List.drop_left' (by simp)]
        have hlen2 : s.transactions.length - (st + l₁.length) = l₂.length + 1 := by
          omega
        rw [hc, hdrop2, hlen2]
        have hsorted : ((s.transactions.drop st).map SNMPTransaction.id).Pairwise
            (· < ·) :=
          List.Pairwise.sublist ((List.drop_sublist st s.transactions).map _) hp
        rw [hdec, List.map_append, List.pairwise_append] at hsorted
        have hafter : ∀ bb ∈ l₂.map SNMPTransaction.id, a.id < bb := by
          have h1 : ((a :: l₂).map SNMPTransaction.id).Pairwise (· < ·) := hsorted.2.1
          simp only [List.map_cons] at h1
          exact (List.pairwise_cons.mp h1).1
        constructor
        · intro hgt
          rw [decide_eq_true_iff] at hgt
          have hne : l₂ ≠ [] := by
            intro hnil
            rw [hnil] at hgt
            simp at hgt
          obtain ⟨tx2, htx2⟩ := List.exists_mem_of_ne_nil l₂ hne
          have := hafter tx2.id (List.mem_map_of_mem _ htx2)
          exact ⟨tx2, htx2, by omega⟩
        · rintro ⟨tx2, htx2, -⟩
          have : 0 < l₂.length := List.length_pos.mpr (by
            rintro rfl
            simp at htx2)
          simp only [decide_eq_true_iff]
          omega

/-- Witness for C10_thm: the state after two successful parses on a fresh
session has strictly ascending ids. -/
theorem C10_witness :
    ((runOps SNMPState.new [SessionOp.parseOp bufV2 0,
        SessionOp.parseOp bufV2 1]).transactions.map SNMPTransaction.id).Pairwise
      (· < ·) :=
  (C10_thm _ ⟨_, rfl⟩).1

end Snmp
